import Mathlib

/-!
Verification development for the codex-serve protocol translation core.

The Rust sources are shallowly embedded as Lean definitions:

* `src/openai/schema.rs`  — JSON Schema sanitizer (`sanitize_json_schema`);
* `src/openai/chat.rs`    — request normalizer (`ChatCompletionRequest::into_prompt`);
* `src/prompt.rs`         — developer prompt injection;
* `src/server/response.rs`— token usage conversion (`From<TokenUsage> for Usage`);
* `src/server/mod.rs`     — streaming forwarder (`forward_sse_events`,
                            `forward_tool_call_chunk`, `chunk_event`).

JSON values are modelled by the inductive `Json`; JSON objects are association
lists (serde maps have unique keys, `lookup` is first-match and `ainsert`
replaces in place, mirroring map insertion).  Strings that the Rust code
indexes by bytes (streamed tool-call argument strings) are modelled as UTF-8
byte lists (`ByteStr`); all other strings are Lean `String`s, with the ASCII
case/trim helpers spelled out so that all definitions compute.

Error paths are `Except ApiError`, mirroring `Result<_, ApiError>`.
-/

namespace CodexServe

/-! ### String helpers (ASCII case folding, trimming, substring search)

`to_ascii_lowercase`, `str::trim` and `str::contains` from Rust are modelled
on the character list underlying a Lean `String`.  Rust's `trim` strips
Unicode whitespace; the model strips `Char.isWhitespace` (space, tab, CR,
LF), which agrees on the ASCII inputs the claims exercise. -/

def ascii_lower_char (c : Char) : Char :=
  if 'A' ≤ c ∧ c ≤ 'Z' then Char.ofNat (c.toNat + 32) else c

def ascii_lower (s : String) : String :=
  ⟨s.data.map ascii_lower_char⟩

def trim_str (s : String) : String :=
  ⟨((s.data.dropWhile Char.isWhitespace).reverse.dropWhile Char.isWhitespace).reverse⟩

def join_with (sep : String) : List String → String
  | [] => ""
  | [x] => x
  | x :: xs => x ++ sep ++ join_with sep xs

/-- Substring search on character lists, modelling Rust `str::contains`. -/
def has_substr (needle : List Char) : List Char → Bool
  | [] => needle.isEmpty
  | c :: rest => needle.isPrefixOf (c :: rest) || has_substr needle rest

def string_contains (haystack needle : String) : Bool :=
  has_substr needle.data haystack.data

/-! ### JSON values and object (association list) operations -/

inductive Json where
  | null
  | bool (b : Bool)
  | num (n : Int)
  | str (s : String)
  | arr (items : List Json)
  | obj (fields : List (String × Json))

/-- First-match lookup in an association list (serde map access). -/
def alookup {β : Type} : List (String × β) → String → Option β
  | [], _ => none
  | (k', v) :: rest, k => if k' == k then some v else alookup rest k

def akey {β : Type} (m : List (String × β)) (k : String) : Bool :=
  (alookup m k).isSome

/-- Map insertion: replace the value at the key if present, else append. -/
def ainsert {β : Type} : List (String × β) → String → β → List (String × β)
  | [], k, v => [(k, v)]
  | (k', v') :: rest, k, v =>
      if k' == k then (k, v) :: rest else (k', v') :: ainsert rest k v

def Json.isBool : Json → Bool
  | .bool _ => true
  | _ => false

/-! ### `src/server/response.rs`: token usage conversion

`TokenUsage` comes from `codex_core::protocol`; its token fields are `i64`
(the local `clamp` helper in the `From` impl takes `i64`), modelled as `Int`.
`Usage` fields are `u32`, modelled as `Nat` together with the `as u32`
truncation (`% 2^32`) performed by `clamp`. -/

structure TokenUsage where
  input_tokens : Int
  cached_input_tokens : Int
  output_tokens : Int
  reasoning_output_tokens : Int
  total_tokens : Int
  deriving DecidableEq

structure Usage where
  prompt_tokens : Nat
  completion_tokens : Nat
  total_tokens : Nat
  deriving DecidableEq

/-- The local `clamp` in `impl From<TokenUsage> for Usage`:
`if v <= 0 { 0 } else { v as u32 }`. -/
def clampTok (v : Int) : Nat :=
  if v ≤ 0 then 0 else v.toNat % 2 ^ 32

/-- Model of `impl From<TokenUsage> for Usage` (`src/server/response.rs`). -/
def usageFromTokenUsage (value : TokenUsage) : Usage :=
  { prompt_tokens := clampTok (value.input_tokens + value.cached_input_tokens)
    completion_tokens := clampTok (value.output_tokens + value.reasoning_output_tokens)
    total_tokens := clampTok value.total_tokens }

/-! ### `src/openai/schema.rs`: the Schema Sanitizer

`sanitize_json_schema` / `sanitize_object_schema`.  The in-place mutation of
the serde map is modelled as a pass over the field list (`sanitizeFieldsPass`)
followed by the `type` insertion and the `properties`/`items` defaults.  The
resolved type is computed from key presence and the `type` value, neither of
which the recursive pass changes, so computing it first is faithful to the
Rust order (which recurses first, then resolves the type). -/

def allowedScalarType (s : String) : Bool :=
  s == "object" || s == "array" || s == "string" || s == "number" ||
    s == "integer" || s == "boolean"

/-- First allowed scalar type named in a `type` array (lines 42-54). -/
def firstAllowedType : List Json → Option String
  | [] => none
  | .str c :: rest => if allowedScalarType c then some c else firstAllowedType rest
  | _ :: rest => firstAllowedType rest

/-- Type resolution of `sanitize_object_schema` (lines 37-80): the `type`
value if it is a string, else the first allowed entry of a `type` array, else
structural inference, defaulting to `"string"`. -/
def resolveSchemaType (map : List (String × Json)) : String :=
  let fromKey : Option String :=
    match alookup map "type" with
    | some (.str s) => some s
    | some (.arr ts) => firstAllowedType ts
    | _ => none
  match fromKey with
  | some s => s
  | none =>
      if akey map "properties" || akey map "required" || akey map "additionalProperties" then
        "object"
      else if akey map "items" || akey map "prefixItems" then
        "array"
      else if akey map "enum" || akey map "const" || akey map "format" then
        "string"
      else if akey map "minimum" || akey map "maximum" || akey map "exclusiveMinimum" ||
          akey map "exclusiveMaximum" || akey map "multipleOf" then
        "number"
      else "string"

mutual

/-- Model of `sanitize_json_schema` (`src/openai/schema.rs`, lines 7-20). -/
def sanitize_json_schema : Json → Json
  | .bool _ => .obj [("type", Json.str "string")]
  | .arr items => .arr (sanitizeArr items)
  | .obj fields => .obj (sanitize_object_schema fields)
  | .null => .null
  | .num n => .num n
  | .str s => .str s

def sanitizeArr : List Json → List Json
  | [] => []
  | x :: xs => sanitize_json_schema x :: sanitizeArr xs

/-- Recursion into the values of a `properties` object (lines 23-27). -/
def sanitizeProps : List (String × Json) → List (String × Json)
  | [] => []
  | (k, v) :: rest => (k, sanitize_json_schema v) :: sanitizeProps rest

/-- Treatment of one field by `sanitize_object_schema`: recurse into
`properties` values, `items`, the combinator keys, and (when the resolved
type is `object`) a non-boolean `additionalProperties`; other fields are
untouched. -/
def sanitizeFieldEntry (ty : String) (k : String) (v : Json) : Json :=
  if k == "properties" then
    match v with
    | .obj pm => Json.obj (sanitizeProps pm)
    | other => other
  else if k == "items" || k == "oneOf" || k == "anyOf" || k == "allOf" ||
      k == "prefixItems" then
    sanitize_json_schema v
  else if k == "additionalProperties" && ty == "object" && !v.isBool then
    sanitize_json_schema v
  else v

/-- The recursive sweep of `sanitize_object_schema` (lines 23-35 and the
`additionalProperties` recursion of lines 87-91). -/
def sanitizeFieldsPass (ty : String) : List (String × Json) → List (String × Json)
  | [] => []
  | (k, v) :: rest => (k, sanitizeFieldEntry ty k v) :: sanitizeFieldsPass ty rest

/-- Model of `sanitize_object_schema` (lines 22-97). -/
def sanitize_object_schema (fields : List (String × Json)) : List (String × Json) :=
  let ty := resolveSchemaType fields
  let f1 := sanitizeFieldsPass ty fields
  let f2 := ainsert f1 "type" (Json.str ty)
  let f3 :=
    if ty == "object" && !akey f2 "properties" then
      f2 ++ [("properties", Json.obj [])]
    else f2
  if ty == "array" && !akey f3 "items" then
    f3 ++ [("items", Json.obj [("type", Json.str "string")])]
  else f3

end

/-- Does the `type` value of the field list name the `object` type? -/
def typeIsObject (fields : List (String × Json)) : Bool :=
  match alookup fields "type" with
  | some (.str s) => s == "object"
  | _ => false

mutual

/-- Guarantee actually established by the sanitizer on its output: every
object reachable through `properties` values, `items`, `oneOf`, `anyOf`,
`allOf` or `prefixItems` has a `type` key, boolean leaves in those positions
are gone, and an `additionalProperties` value of an object-typed schema is
either a (preserved) boolean or itself sanitized. -/
def goodSchema : Json → Bool
  | .bool _ => false
  | .arr items => goodArr items
  | .obj fields => akey fields "type" && goodFields (typeIsObject fields) fields
  | .null => true
  | .num _ => true
  | .str _ => true

def goodArr : List Json → Bool
  | [] => true
  | x :: xs => goodSchema x && goodArr xs

def goodProps : List (String × Json) → Bool
  | [] => true
  | (_, v) :: rest => goodSchema v && goodProps rest

def goodFieldEntry (tyObj : Bool) (k : String) (v : Json) : Bool :=
  if k == "properties" then
    match v with
    | .obj pm => goodProps pm
    | _ => true
  else if k == "items" || k == "oneOf" || k == "anyOf" || k == "allOf" ||
      k == "prefixItems" then
    goodSchema v
  else if k == "additionalProperties" && tyObj then
    v.isBool || goodSchema v
  else true

def goodFields (tyObj : Bool) : List (String × Json) → Bool
  | [] => true
  | (k, v) :: rest => goodFieldEntry tyObj k v && goodFields tyObj rest

end

mutual

/-- Coverage predicate transcribing the claim's words: every object
(including all nested objects reachable through `properties`, `items`,
`oneOf`, `anyOf`, `allOf`, `prefixItems`, and `additionalProperties`) has a
`type` field, and no boolean schema leaf remains in any of those positions. -/
def claimSchemaOk : Json → Bool
  | .bool _ => false
  | .arr items => claimArrOk items
  | .obj fields => akey fields "type" && claimFieldsOk fields
  | .null => true
  | .num _ => true
  | .str _ => true

def claimArrOk : List Json → Bool
  | [] => true
  | x :: xs => claimSchemaOk x && claimArrOk xs

def claimPropsOk : List (String × Json) → Bool
  | [] => true
  | (_, v) :: rest => claimSchemaOk v && claimPropsOk rest

def claimFieldEntry (k : String) (v : Json) : Bool :=
  if k == "properties" then
    match v with
    | .obj pm => claimPropsOk pm
    | _ => true
  else if k == "items" || k == "oneOf" || k == "anyOf" || k == "allOf" ||
      k == "prefixItems" || k == "additionalProperties" then
    claimSchemaOk v
  else true

def claimFieldsOk : List (String × Json) → Bool
  | [] => true
  | (k, v) :: rest => claimFieldEntry k v && claimFieldsOk rest

end

/-! ### Association list lemmas -/

theorem alookup_ainsert_self {β : Type} (m : List (String × β)) (k : String) (v : β) :
    alookup (ainsert m k v) k = some v := by
  induction m with
  | nil => simp [ainsert, alookup]
  | cons p rest ih =>
      obtain ⟨k', v'⟩ := p
      by_cases h : k' = k
      · subst h
        simp [ainsert, alookup]
      · simp [ainsert, alookup, h, ih]

theorem alookup_ainsert_ne {β : Type} (m : List (String × β)) (k k' : String) (v : β)
    (h : ¬k' = k) : alookup (ainsert m k v) k' = alookup m k' := by
  have h' : ¬k = k' := fun e => h e.symm
  induction m with
  | nil => simp [ainsert, alookup, h']
  | cons p rest ih =>
      obtain ⟨k0, v0⟩ := p
      by_cases h0 : k0 = k
      · subst h0
        simp [ainsert, alookup, h']
      · simp [ainsert, alookup, h0, ih]

theorem alookup_append_left {β : Type} (m m' : List (String × β)) (k : String)
    (h : akey m k = true) : alookup (m ++ m') k = alookup m k := by
  induction m with
  | nil => simp [akey, alookup] at h
  | cons p rest ih =>
      obtain ⟨k0, v0⟩ := p
      by_cases h0 : k0 = k
      · subst h0
        simp [alookup]
      · have h' : akey rest k = true := by simpa [akey, alookup, h0] using h
        simp [alookup, h0, ih h']

/-! ### The sanitizer invariant (claim C2)

`goodFields` is unchanged when a `"type"` binding is inserted, distributes
over append, and is established by the recursive sweep. -/

theorem goodFieldEntry_type (t : Bool) (v : Json) : goodFieldEntry t "type" v = true := by
  unfold goodFieldEntry
  simp

theorem goodFields_append (t : Bool) (m m' : List (String × Json)) :
    goodFields t (m ++ m') = (goodFields t m && goodFields t m') := by
  induction m with
  | nil => simp [goodFields]
  | cons p rest ih =>
      obtain ⟨k, v⟩ := p
      rw [List.cons_append]
      simp only [goodFields]
      rw [ih, ← Bool.and_assoc]

theorem goodFields_ainsert_type (t : Bool) (m : List (String × Json)) (v : Json) :
    goodFields t (ainsert m "type" v) = goodFields t m := by
  induction m with
  | nil => simp [ainsert, goodFields, goodFieldEntry_type]
  | cons p rest ih =>
      obtain ⟨k0, v0⟩ := p
      by_cases h0 : k0 = "type"
      · subst h0
        simp [ainsert, goodFields, goodFieldEntry_type]
      · simp only [ainsert, beq_iff_eq, h0, if_false]
        simp only [goodFields, ih]

theorem goodProps_sanitizeProps (pm : List (String × Json))
    (ih : ∀ q ∈ pm, goodSchema (sanitize_json_schema q.2) = true) :
    goodProps (sanitizeProps pm) = true := by
  induction pm with
  | nil => simp [sanitizeProps, goodProps]
  | cons q rest ihr =>
      obtain ⟨k, v⟩ := q
      simp only [sanitizeProps, goodProps, Bool.and_eq_true]
      exact ⟨ih (k, v) (by simp), ihr fun q hq => ih q (by simp [hq])⟩

theorem goodArr_sanitizeArr (l : List Json)
    (ih : ∀ x ∈ l, goodSchema (sanitize_json_schema x) = true) :
    goodArr (sanitizeArr l) = true := by
  induction l with
  | nil => simp [sanitizeArr, goodArr]
  | cons x rest ihr =>
      simp only [sanitizeArr, goodArr, Bool.and_eq_true]
      exact ⟨ih x (by simp), ihr fun y hy => ih y (by simp [hy])⟩

theorem goodFieldEntry_sanitize (ty : String) (k : String) (v : Json)
    (hv : goodSchema (sanitize_json_schema v) = true)
    (hprops : ∀ pm, v = Json.obj pm → goodProps (sanitizeProps pm) = true) :
    goodFieldEntry (ty == "object") k (sanitizeFieldEntry ty k v) = true := by
  unfold sanitizeFieldEntry goodFieldEntry
  by_cases hk1 : k = "properties"
  · subst hk1
    cases v with
    | obj pm => simp [hprops pm rfl]
    | null => simp
    | bool b => simp
    | num n => simp
    | str s => simp
    | arr items => simp
  · by_cases hk2 : k = "items" ∨ k = "oneOf" ∨ k = "anyOf" ∨ k = "allOf" ∨ k = "prefixItems"
    · rcases hk2 with h | h | h | h | h <;> subst h <;> simp [hv]
    · push_neg at hk2
      obtain ⟨n1, n2, n3, n4, n5⟩ := hk2
      by_cases hk3 : k = "additionalProperties"
      · subst hk3
        by_cases htyo : ty = "object"
        · subst htyo
          by_cases hb : v.isBool = true
          · simp [hb]
          · have hb' : v.isBool = false := by
              cases hbv : v.isBool
              · rfl
              · exact absurd hbv hb
            simp [hb', hv]
        · have htyo' : (ty == "object") = false := by simp [htyo]
          simp [htyo', hk1, n1, n2, n3, n4, n5]
      · simp [hk1, n1, n2, n3, n4, n5, hk3]

theorem goodFields_sanitizeFieldsPass (ty : String) (fields : List (String × Json))
    (ih : ∀ p ∈ fields, goodSchema (sanitize_json_schema p.2) = true)
    (ih2 : ∀ p ∈ fields, ∀ pm, p.2 = Json.obj pm →
      ∀ q ∈ pm, goodSchema (sanitize_json_schema q.2) = true) :
    goodFields (ty == "object") (sanitizeFieldsPass ty fields) = true := by
  induction fields with
  | nil => simp [sanitizeFieldsPass, goodFields]
  | cons p rest ihr =>
      obtain ⟨k, v⟩ := p
      have hv : goodSchema (sanitize_json_schema v) = true := ih (k, v) (by simp)
      have hrest : goodFields (ty == "object") (sanitizeFieldsPass ty rest) = true :=
        ihr (fun q hq => ih q (by simp [hq])) (fun q hq => ih2 q (by simp [hq]))
      have hentry := goodFieldEntry_sanitize ty k v hv
        (fun pm hpm => goodProps_sanitizeProps pm (ih2 (k, v) (by simp) pm hpm))
      simp only [sanitizeFieldsPass, goodFields, Bool.and_eq_true]
      exact ⟨hentry, hrest⟩

theorem goodSchema_type_string : goodSchema (Json.obj [("type", Json.str "string")]) = true := by
  simp [goodSchema, goodFields, akey, alookup, typeIsObject, goodFieldEntry_type]

theorem good_sanitize_object (fields : List (String × Json))
    (ih : ∀ p ∈ fields, goodSchema (sanitize_json_schema p.2) = true)
    (ih2 : ∀ p ∈ fields, ∀ pm, p.2 = Json.obj pm →
      ∀ q ∈ pm, goodSchema (sanitize_json_schema q.2) = true) :
    goodSchema (Json.obj (sanitize_object_schema fields)) = true := by
  unfold sanitize_object_schema
  set ty := resolveSchemaType fields with hty
  set f1 := sanitizeFieldsPass ty fields with hf1
  set f2 := ainsert f1 "type" (Json.str ty) with hf2
  have hf2look : alookup f2 "type" = some (Json.str ty) := alookup_ainsert_self f1 "type" _
  have hf2key : akey f2 "type" = true := by simp [akey, hf2look]
  have hg1 : goodFields (ty == "object") f1 = true :=
    goodFields_sanitizeFieldsPass ty fields ih ih2
  have hg2 : goodFields (ty == "object") f2 = true := by
    rw [hf2, goodFields_ainsert_type]
    exact hg1
  set f3 := if ty == "object" && !akey f2 "properties" then
      f2 ++ [("properties", Json.obj [])] else f2 with hf3
  have hf3look : alookup f3 "type" = some (Json.str ty) := by
    rw [hf3]
    split
    · rw [alookup_append_left _ _ _ hf2key]
      exact hf2look
    · exact hf2look
  have hf3key : akey f3 "type" = true := by simp [akey, hf3look]
  have hentry_props : goodFieldEntry (ty == "object") "properties" (Json.obj []) = true := by
    unfold goodFieldEntry
    simp [goodProps]
  have hg3 : goodFields (ty == "object") f3 = true := by
    rw [hf3]
    split
    · rw [goodFields_append]
      simp [goodFields, hg2, hentry_props]
    · exact hg2
  set f4 := if ty == "array" && !akey f3 "items" then
      f3 ++ [("items", Json.obj [("type", Json.str "string")])] else f3 with hf4
  have hf4look : alookup f4 "type" = some (Json.str ty) := by
    rw [hf4]
    split
    · rw [alookup_append_left _ _ _ hf3key]
      exact hf3look
    · exact hf3look
  have hf4key : akey f4 "type" = true := by simp [akey, hf4look]
  have hentry_items : goodFieldEntry (ty == "object") "items"
      (Json.obj [("type", Json.str "string")]) = true := by
    unfold goodFieldEntry
    simp [goodSchema_type_string]
  have hg4 : goodFields (ty == "object") f4 = true := by
    rw [hf4]
    split
    · rw [goodFields_append]
      simp [goodFields, hg3, hentry_items]
    · exact hg3
  have htyObj : typeIsObject f4 = (ty == "object") := by
    simp [typeIsObject, hf4look]
  simp only [goodSchema, htyObj, hf4key, hg4, Bool.and_self]

theorem sizeOf_snd_lt_pair (p : String × Json) : sizeOf p.2 < sizeOf p := by
  obtain ⟨a, b⟩ := p
  simp

theorem goodSchema_sanitize_size :
    ∀ (n : Nat) (v : Json), sizeOf v ≤ n → goodSchema (sanitize_json_schema v) = true := by
  intro n
  induction n with
  | zero =>
      intro v h
      exfalso
      cases v <;> simp at h
  | succ n ih =>
      intro v h
      cases v with
      | null => simp [sanitize_json_schema, goodSchema]
      | bool b => simp [sanitize_json_schema, goodSchema_type_string]
      | num m => simp [sanitize_json_schema, goodSchema]
      | str s => simp [sanitize_json_schema, goodSchema]
      | arr items =>
          have hsz : sizeOf items ≤ n := by simp at h; omega
          have hx : ∀ x ∈ items, goodSchema (sanitize_json_schema x) = true := by
            intro x hxmem
            exact ih x (by have := List.sizeOf_lt_of_mem hxmem; omega)
          simp only [sanitize_json_schema, goodSchema]
          exact goodArr_sanitizeArr items hx
      | obj fields =>
          have hsz : sizeOf fields ≤ n := by simp at h; omega
          have ih1 : ∀ p ∈ fields, goodSchema (sanitize_json_schema p.2) = true := by
            intro p hp
            have h1 := List.sizeOf_lt_of_mem hp
            have h2 := sizeOf_snd_lt_pair p
            exact ih p.2 (by omega)
          have ih2 : ∀ p ∈ fields, ∀ pm, p.2 = Json.obj pm →
              ∀ q ∈ pm, goodSchema (sanitize_json_schema q.2) = true := by
            intro p hp pm hpm q hq
            have h1 := List.sizeOf_lt_of_mem hp
            have h2 := sizeOf_snd_lt_pair p
            have h3 := List.sizeOf_lt_of_mem hq
            have h4 := sizeOf_snd_lt_pair q
            have h5 : sizeOf pm < sizeOf p.2 := by rw [hpm]; simp
            exact ih q.2 (by omega)
          simp only [sanitize_json_schema]
          exact good_sanitize_object fields ih1 ih2

theorem goodSchema_sanitize (v : Json) : goodSchema (sanitize_json_schema v) = true :=
  goodSchema_sanitize_size (sizeOf v) v (Nat.le_refl _)

/-- C2 (corrected): the claim is false as stated.  For the input
`{"type": "string", "additionalProperties": {}}` the sanitizer leaves the
object under `additionalProperties` untouched (the `additionalProperties`
recursion of `sanitize_object_schema` only fires when the resolved type is
`object`), so the output contains a nested object reachable through
`additionalProperties` with no `type` field, refuting the claimed coverage
predicate `claimSchemaOk`. -/
theorem c2_counterexample_additional_properties :
    claimSchemaOk (sanitize_json_schema (Json.obj
      [("type", Json.str "string"), ("additionalProperties", Json.obj [])])) = false := by
  simp [sanitize_json_schema, sanitize_object_schema, sanitizeFieldsPass, resolveSchemaType,
    ainsert, alookup, akey, claimSchemaOk, claimFieldsOk, typeIsObject,
    firstAllowedType, allowedScalarType, claimFieldEntry.eq_def, sanitizeFieldEntry.eq_def,
    Json.isBool]

/-- C2 (amended): `sanitize_json_schema` is total (a Lean function), never
errors, replaces a boolean schema leaf by exactly the permissive
`{"type": "string"}` schema, and on every input establishes `goodSchema`:
every object reachable through `properties`, `items`, `oneOf`, `anyOf`,
`allOf` or `prefixItems` has a `type` field, and an `additionalProperties`
value is sanitized only when the containing schema's resolved type is
`object` and the value is not a boolean (a boolean `additionalProperties` is
preserved; `additionalProperties` under any other resolved type is left
unmodified). -/
theorem c2_amended_schema_sanitizer (v : Json) (b : Bool) :
    goodSchema (sanitize_json_schema v) = true ∧
    sanitize_json_schema (Json.bool b) = Json.obj [("type", Json.str "string")] :=
  ⟨goodSchema_sanitize v, by simp [sanitize_json_schema]⟩

/-- C3 (corrected): the claim is false as stated.  The code clamps the
*sums*, not the individual source values: for
`input_tokens = -5, cached_input_tokens = 3` the code computes
`clamp(-5 + 3) = 0` whereas the claim predicts `clamp(-5) + clamp(3) = 3`. -/
theorem c3_counterexample_clamp_order :
    ¬((usageFromTokenUsage
        { input_tokens := -5, cached_input_tokens := 3, output_tokens := 0,
          reasoning_output_tokens := 0, total_tokens := 0 }).prompt_tokens =
      clampTok (-5) + clampTok 3) := by
  decide

/-- C3 (amended): the derived `Usage` consists of three non-negative
integers obtained by clamping each *sum* after addition (and truncating to
`u32`): `prompt_tokens = max(input_tokens + cached_input_tokens, 0)`,
`completion_tokens = max(output_tokens + reasoning_output_tokens, 0)`,
`total_tokens = max(total_tokens, 0)`, each reduced mod `2^32` by the
`as u32` cast; a negative source value can therefore cancel a positive one
before clamping. -/
theorem c3_amended_usage_clamps_sums (t : TokenUsage) :
    usageFromTokenUsage t =
      { prompt_tokens := (max (t.input_tokens + t.cached_input_tokens) 0).toNat % 2 ^ 32
        completion_tokens := (max (t.output_tokens + t.reasoning_output_tokens) 0).toNat % 2 ^ 32
        total_tokens := (max t.total_tokens 0).toNat % 2 ^ 32 } := by
  have hcl : ∀ v : Int, clampTok v = (max v 0).toNat % 2 ^ 32 := by
    intro v
    unfold clampTok
    by_cases h : v ≤ 0
    · have hm : max v 0 = 0 := max_eq_right h
      simp [h, hm]
    · have hv : 0 ≤ v := le_of_lt (lt_of_not_le h)
      have hm : max v 0 = v := max_eq_left hv
      simp [h, hm]
  simp [usageFromTokenUsage, hcl]

/-! ### `src/error.rs` and `src/openai/chat.rs`: the Request Normalizer

`ContentItem`, `ResponseItem`, `ToolSpec`, `Prompt` and
`FunctionCallOutputPayload` come from `codex_core`; the variants and fields
modelled here are exactly those constructed or matched by the code under
`src/`.  The engine's parsed `JsonSchema` representation and its serde
deserializer live outside `src/`, so tool-schema parsing is abstracted by a
type parameter `JS` together with a parse function and the
`JsonSchema::Object`-with-empty-properties fallback value. -/

inductive ApiError where
  | unauthorized (message : String)
  | badRequest (message : String)
  | internal (message : String)
  deriving DecidableEq

inductive ContentItem where
  | inputText (text : String)
  | outputText (text : String)
  | inputImage (image_url : String)
  deriving DecidableEq

structure FunctionCallOutputPayload where
  content : String
  success : Option Bool
  content_items : Option (List ContentItem)
  deriving DecidableEq

inductive ResponseItem where
  | message (id : Option String) (role : String) (content : List ContentItem)
  | functionCall (id : Option String) (name : String) (arguments : String) (call_id : String)
  | functionCallOutput (call_id : String) (output : FunctionCallOutputPayload)
  deriving DecidableEq

/-- Model of `codex_core::ToolSpec`, with the parsed parameter schema abstracted. -/
inductive ToolSpec (JS : Type) where
  | function (name : String) (description : String) (strict : Bool) (parameters : JS)
  | freeform (name : String) (description : String)
  | localShell
  | webSearch

/-- Model of `codex_core::Prompt`, restricted to the fields this repository touches.
`Prompt::default()` is external; the claims proved here never depend on the
default `parallel_tool_calls` value, modelled as `false`. -/
structure Prompt (JS : Type) where
  input : List ResponseItem
  tools : List (ToolSpec JS)
  parallel_tool_calls : Bool

def Prompt.defaultP (JS : Type) : Prompt JS :=
  { input := [], tools := [], parallel_tool_calls := false }

structure ChatToolFunction where
  name : Option String
  arguments : Option String
  deriving DecidableEq

structure ChatToolCall where
  id : Option String
  typ : Option String
  function : Option ChatToolFunction
  deriving DecidableEq

structure ChatMessage where
  role : String
  content : Json
  name : Option String
  tool_call_id : Option String
  tool_calls : Option (List ChatToolCall)

structure RequestToolFunction where
  name : Option String
  description : Option String
  strict : Option Bool
  parameters : Option Json

structure RequestTool where
  kind : String
  function : Option RequestToolFunction

structure ChatCompletionRequest where
  model : String
  messages : List ChatMessage
  stream : Bool
  tools : List RequestTool
  parallel_tool_calls : Option Bool

structure PromptPayload (JS : Type) where
  model : String
  prompt : Prompt JS
  first_user_message : Option String

/-- Model of `normalize_model` (`src/openai/chat.rs`, lines 142-149). -/
def normalize_model (model : String) : String :=
  let trimmed := trim_str model
  if trimmed.data.isEmpty then "gpt-5" else trimmed

/-- Model of `normalize_role` (lines 151-162): trim, default empty to `user`,
lowercase (ASCII), and rewrite `system` to `developer`. -/
def normalize_role (role : String) : String :=
  let trimmed := trim_str role
  if trimmed.data.isEmpty then "user"
  else
    let lowered := ascii_lower trimmed
    if lowered == "system" then "developer" else lowered

/-- Model of `content_item_for_role` (lines 239-246). -/
def content_item_for_role (role : String) (text : String) : ContentItem :=
  if role == "assistant" then .outputText text else .inputText text

/-- Model of `extract_image_url` (lines 248-258). -/
def extract_image_url (map : List (String × Json)) : Except ApiError String :=
  match alookup map "image_url" with
  | some (.str url) => .ok url
  | some (.obj url_obj) =>
      match alookup url_obj "url" with
      | some (.str url) => .ok url
      | _ => .error (.badRequest "image content requires `image_url`")
  | _ => .error (.badRequest "image content requires `image_url`")

/-- Model of `convert_content_item` (lines 208-237). -/
def convert_content_item (role : String) (value : Json) : Except ApiError ContentItem :=
  match value with
  | .str text => .ok (content_item_for_role role text)
  | .obj map =>
      match alookup map "type" with
      | some (.str ctype) =>
          if ctype == "text" || ctype == "input_text" then
            match alookup map "text" with
            | some (.str text) => .ok (content_item_for_role role text)
            | _ => .error (.badRequest "text block missing `text`")
          else if ctype == "image_url" || ctype == "input_image" then
            (extract_image_url map).map (fun url => ContentItem.inputImage url)
          else
            .error (.badRequest ("Unsupported content type `" ++ ctype ++ "`"))
      | _ => .error (.badRequest "Content item missing `type`")
  | _ => .error (.badRequest "Content items must be strings or structured objects")

def convertContentItems (role : String) : List Json → Except ApiError (List ContentItem)
  | [] => .ok []
  | item :: rest => do
      let c ← convert_content_item role item
      let cs ← convertContentItems role rest
      .ok (c :: cs)

/-- Model of `convert_content` (lines 164-206). -/
def convert_content (role : String) (value : Json) : Except ApiError (List ContentItem) :=
  match value with
  | .null => .ok []
  | .str text => .ok [content_item_for_role role text]
  | .arr items => convertContentItems role items
  | .obj map =>
      match alookup map "text" with
      | some (.str text) => .ok [content_item_for_role role text]
      | _ =>
          match alookup map "type" with
          | some (.str tval) =>
              if tval == "text" || tval == "input_text" then
                match alookup map "text" with
                | some (.str text) => .ok [content_item_for_role role text]
                | _ => .error (.badRequest "text block missing `text`")
              else if tval == "image_url" || tval == "input_image" then
                (extract_image_url map).map (fun url => [ContentItem.inputImage url])
              else
                .error (.badRequest ("Unsupported content type `" ++ tval ++ "`"))
          | _ => .error (.badRequest "Message content object must include `type`")
  | _ => .error (.badRequest "Message content must be text or a structured content array")

/-- Model of `first_text` (lines 260-265). -/
def first_text (content : List ContentItem) : Option String :=
  content.findSome? fun item =>
    match item with
    | .inputText text => some text
    | _ => none

/-- Loop body of `convert_assistant_tool_calls` (lines 267-304); `acc` holds
the already-converted items (its length synthesizes the missing call id). -/
def convertToolCallsGo : List ChatToolCall → List ResponseItem → List ResponseItem
  | [], acc => acc
  | tc :: rest, acc =>
      let call_type := tc.typ.getD "function"
      if !(ascii_lower call_type == "function") then
        convertToolCallsGo rest acc
      else
        match tc.function with
        | none => convertToolCallsGo rest acc
        | some fn =>
            match (fn.name.map trim_str).filter (fun s => !s.data.isEmpty) with
            | none => convertToolCallsGo rest acc
            | some name =>
                let arguments := fn.arguments.getD "\x7b\x7d"
                let call_id :=
                  ((tc.id.filter (fun i => !(trim_str i).data.isEmpty)).getD
                    ("call_" ++ toString acc.length))
                convertToolCallsGo rest
                  (acc ++ [ResponseItem.functionCall none name arguments call_id])

/-- Model of `convert_assistant_tool_calls` (lines 267-304).  `eq_ignore_ascii_case`
is modelled by ASCII-lowering the call type (the compared literal
`"function"` is already lowercase). -/
def convert_assistant_tool_calls (calls : Option (List ChatToolCall)) : List ResponseItem :=
  match calls with
  | none => []
  | some list => convertToolCallsGo list []

/-- Model of `convert_tool_output` (lines 306-325). -/
def convert_tool_output (message : ChatMessage) : Option ResponseItem :=
  match message.tool_call_id with
  | none => none
  | some call_id =>
      match message.content with
      | .str text =>
          some (.functionCallOutput call_id
            { content := text, success := some true, content_items := none })
      | .arr parts =>
          let content := join_with "\n" (parts.filterMap fun part =>
            match part with
            | .obj m =>
                match alookup m "text" with
                | some (.str s) => some s
                | _ => none
            | _ => none)
          some (.functionCallOutput call_id
            { content := content, success := some true, content_items := none })
      | _ => none

/-- Model of `normalize_tool_schema` (lines 385-399): `entry(..).or_insert(..)` keeps
an existing binding and appends a missing one. -/
def entryOr (m : List (String × Json)) (k : String) (v : Json) : List (String × Json) :=
  if akey m k then m else m ++ [(k, v)]

def normalize_tool_schema (parameters : Option Json) : Json :=
  match parameters with
  | some (.obj map) =>
      .obj (entryOr (entryOr map "type" (Json.str "object")) "properties" (Json.obj []))
  | _ => .obj [("type", Json.str "object"), ("properties", Json.obj [])]

/-- Model of `convert_function_tools` (lines 327-383).  `parse` stands for the
external `serde_json::from_value::<JsonSchema>` and `emptyObj` for the
`JsonSchema::Object` fallback used when parsing fails (parse failures are
logged, never surfaced as request errors). -/
def convert_function_tools {JS : Type} (parse : Json → Option JS) (emptyObj : JS)
    (tools : List RequestTool) : Except ApiError (Option (List (ToolSpec JS))) :=
  let specs := tools.filterMap fun tool =>
    if !(ascii_lower tool.kind == "function") then none
    else
      match tool.function with
      | none => none
      | some fn =>
          match (fn.name.map trim_str).filter (fun s => !s.data.isEmpty) with
          | none => none
          | some name =>
              let description := fn.description.bind fun d =>
                let trimmed := trim_str d
                if trimmed.data.isEmpty then none else some trimmed
              let parameters_value := sanitize_json_schema (normalize_tool_schema fn.parameters)
              let parameters :=
                match parse parameters_value with
                | some schema => schema
                | none => emptyObj
              some (ToolSpec.function name (description.getD "") (fn.strict.getD false)
                parameters)
  if specs.isEmpty then .ok none else .ok (some specs)

/-- Items contributed by one message of the `into_prompt` loop
(lines 94-123), together with the message's candidate for
`first_user_message`. -/
def messageItems (message : ChatMessage) : Except ApiError (List ResponseItem × Option String) :=
  let role := normalize_role message.role
  if role == "tool" then
    match convert_tool_output message with
    | some output_item => .ok ([output_item], none)
    | none => .ok ([], none)
  else
    let tool_call_items :=
      if role == "assistant" then convert_assistant_tool_calls message.tool_calls else []
    match convert_content role message.content with
    | .error e => .error e
    | .ok content =>
        let first_user := if role == "user" then first_text content else none
        if content.isEmpty then
          .ok (tool_call_items, first_user)
        else
          .ok (tool_call_items ++ [ResponseItem.message none role content], first_user)

def processMessages : List ChatMessage → Except ApiError (List ResponseItem × Option String)
  | [] => .ok ([], none)
  | message :: rest => do
      let (items, fu) ← messageItems message
      let (rest_items, rest_fu) ← processMessages rest
      .ok (items ++ rest_items, fu <|> rest_fu)

/-- Model of `ChatCompletionRequest::into_prompt` (lines 86-139). -/
def into_prompt {JS : Type} (parse : Json → Option JS) (emptyObj : JS)
    (req : ChatCompletionRequest) : Except ApiError (PromptPayload JS) :=
  if req.messages.isEmpty then
    .error (.badRequest "Request must include messages: []")
  else
    let model := normalize_model req.model
    match processMessages req.messages with
    | .error e => .error e
    | .ok (items, first_user) =>
        match convert_function_tools parse emptyObj req.tools with
        | .error e => .error e
        | .ok specs? =>
            let base := Prompt.defaultP JS
            let tools :=
              match specs? with
              | some specs => base.tools ++ specs
              | none => base.tools
            let ptc :=
              match req.parallel_tool_calls with
              | some enabled => enabled
              | none => base.parallel_tool_calls
            .ok { model := model
                  prompt := { input := base.input ++ items, tools := tools,
                              parallel_tool_calls := ptc }
                  first_user_message := first_user }

/-- C5 (confirmed): `into_prompt` fails with the BadRequest error whenever
the request's message list is empty, for every value of the other request
fields (model, stream flag, tools, parallel_tool_calls), and for every
tool-schema parser. -/
theorem c5_empty_messages_bad_request {JS : Type} (parse : Json → Option JS) (emptyObj : JS)
    (model : String) (stream : Bool) (tools : List RequestTool) (ptc : Option Bool) :
    into_prompt parse emptyObj
      { model := model, messages := [], stream := stream, tools := tools,
        parallel_tool_calls := ptc } =
      .error (.badRequest "Request must include messages: []") := by
  simp [into_prompt]

/-- C6 (corrected): counterexample — a `tool`-role message whose content is
the plain string `"hi"` produces *no* content part at all: it is converted
to a FunctionCallOutput item (carrying the string as output text), not to a
message with one input-text part, refuting the claim for the `tool` role. -/
theorem c6_counterexample_tool_role_message :
    messageItems { role := "tool", content := .str "hi", name := none,
                   tool_call_id := some "call_1", tool_calls := none } =
      .ok ([ResponseItem.functionCallOutput "call_1"
        { content := "hi", success := some true, content_items := none }], none) := by
  rfl

/-- C6 (amended): for every message whose content is a plain string and
whose *normalized role is not `tool`*, normalization produces exactly one
content part for that message, with polarity matching the normalized role:
`assistant` yields an output-text part, every other (non-tool) role yields
an input-text part.  (A tool-role message's string content instead becomes
the output text of a FunctionCallOutput item, with no content part.) -/
theorem c6_amended_string_content_polarity (m : ChatMessage) (s : String)
    (hc : m.content = Json.str s) (hrole : ¬normalize_role m.role = "tool") :
    messageItems m =
      .ok ((if normalize_role m.role == "assistant"
              then convert_assistant_tool_calls m.tool_calls else []) ++
            [ResponseItem.message none (normalize_role m.role)
              [content_item_for_role (normalize_role m.role) s]],
           if normalize_role m.role == "user"
             then first_text [content_item_for_role (normalize_role m.role) s] else none) ∧
    content_item_for_role (normalize_role m.role) s =
      (if normalize_role m.role == "assistant" then ContentItem.outputText s
       else ContentItem.inputText s) := by
  constructor
  · unfold messageItems
    rw [hc]
    simp [hrole, convert_content]
  · rfl

/-- Witness for C6 (amended): a concrete user message with string content. -/
theorem c6_amended_witness :
    (({ role := "user", content := .str "hi", name := none, tool_call_id := none,
          tool_calls := none : ChatMessage }).content = Json.str "hi") ∧
    ¬normalize_role "user" = "tool" ∧
    (messageItems { role := "user", content := .str "hi", name := none, tool_call_id := none,
                    tool_calls := none } =
      .ok ([ResponseItem.message none (normalize_role "user")
              [content_item_for_role (normalize_role "user") "hi"]],
           first_text [content_item_for_role (normalize_role "user") "hi"]) ∧
     content_item_for_role (normalize_role "user") "hi" = ContentItem.inputText "hi") := by
  refine ⟨rfl, by decide, ?_⟩
  exact c6_amended_string_content_polarity
    { role := "user", content := .str "hi", name := none, tool_call_id := none,
      tool_calls := none } "hi" rfl (by decide)

/-- C10 (confirmed): every tool-role message that `convert_tool_output`
converts is a FunctionCallOutput whose success flag is `Some(true)`,
regardless of the message content: the normalizer never reports a
caller-supplied tool result as failed. -/
theorem c10_tool_outputs_marked_success (m : ChatMessage) (item : ResponseItem)
    (h : convert_tool_output m = some item) :
    ∃ call_id output, item = .functionCallOutput call_id output ∧
      output.success = some true := by
  unfold convert_tool_output at h
  cases hid : m.tool_call_id with
  | none => rw [hid] at h; simp at h
  | some cid =>
      rw [hid] at h
      cases hc : m.content with
      | str text =>
          rw [hc] at h
          simp only [Option.some.injEq] at h
          exact ⟨cid, _, h.symm, rfl⟩
      | arr parts =>
          rw [hc] at h
          simp only [Option.some.injEq] at h
          exact ⟨cid, _, h.symm, rfl⟩
      | null => rw [hc] at h; simp at h
      | bool b => rw [hc] at h; simp at h
      | num n => rw [hc] at h; simp at h
      | obj fields => rw [hc] at h; simp at h

/-- Witness for C10: a concrete tool message. -/
theorem c10_witness :
    (convert_tool_output { role := "tool", content := .str "ok", name := none,
                           tool_call_id := some "c9", tool_calls := none } =
      some (.functionCallOutput "c9"
        { content := "ok", success := some true, content_items := none })) ∧
    (∃ call_id output,
      (ResponseItem.functionCallOutput "c9"
        { content := "ok", success := some true, content_items := none }) =
        .functionCallOutput call_id output ∧ output.success = some true) :=
  ⟨rfl,
    c10_tool_outputs_marked_success
      { role := "tool", content := .str "ok", name := none, tool_call_id := some "c9",
        tool_calls := none }
      (ResponseItem.functionCallOutput "c9"
        { content := "ok", success := some true, content_items := none })
      rfl⟩

/-! ### `src/serve_config.rs` and `src/prompt.rs`: the Prompt Augmentor -/

inductive DeveloperPromptMode where
  | disabled
  | defaultMode
  | overrideMode
  deriving DecidableEq

def CODEX_SERVE_PROMPT_MARKER : String := "Codex Serve compatibility mode"

/-- Model of `build_developer_prompt_text` (`src/prompt.rs`, lines 63-90). -/
def build_developer_prompt_text (has_web_search : Bool) (original_system : Option String) :
    String :=
  let lines :=
    ["This compatibility shim cannot run shells, edit files, or inspect your workspace.",
     "Never claim you executed commands or edits—describe what the user should run instead and wait for their results."] ++
    (if has_web_search then
      ["You may invoke the `web_search` tool when you truly need new information."]
    else
      ["No tools are available for this conversation."])
  let text := CODEX_SERVE_PROMPT_MARKER ++ ":\n" ++
    join_with "\n" (lines.map (fun line => "- " ++ line))
  match original_system with
  | some original => text ++ "\n\nThe original system message follows:\n" ++ original
  | none => text

/-- Model of `has_existing_codex_serve_message` (lines 92-104): a developer-role
message with an input-text part containing the marker. -/
def has_existing_codex_serve_message {JS : Type} (prompt : Prompt JS) : Bool :=
  prompt.input.any fun item =>
    match item with
    | .message _ role content =>
        role == "developer" &&
          content.any fun entry =>
            match entry with
            | .inputText text => string_contains text CODEX_SERVE_PROMPT_MARKER
            | _ => false
    | _ => false

/-- Model of `inject_developer_prompt` (lines 23-61). -/
def inject_developer_prompt {JS : Type} (prompt : Prompt JS) (has_web_search : Bool)
    (system_prompt : Option String) (mode : DeveloperPromptMode) : Prompt JS :=
  if mode = .disabled then prompt
  else if mode = .defaultMode ∧ system_prompt.isSome then prompt
  else if has_existing_codex_serve_message prompt then prompt
  else
    let original_system :=
      match mode with
      | .overrideMode =>
          system_prompt.bind fun text =>
            let trimmed := trim_str text
            if trimmed.data.isEmpty then none else some trimmed
      | .disabled => none
      | .defaultMode => none
    let text := build_developer_prompt_text has_web_search original_system
    { prompt with
        input := ResponseItem.message none "developer" [ContentItem.inputText text] ::
          prompt.input }

/-- C7 (corrected): counterexample — the idempotence guard only inspects
*input-text* parts.  A prompt whose developer-role message carries the
marker inside an *output-text* part (so its text includes the marker) is
still augmented: in override mode a second developer prompt is prepended,
so the prompt is changed. -/
theorem c7_counterexample_output_text_marker :
    (({ input := [ResponseItem.message none "developer"
          [ContentItem.outputText CODEX_SERVE_PROMPT_MARKER]],
        tools := [], parallel_tool_calls := false } : Prompt Unit).input =
      [ResponseItem.message none "developer"
        [ContentItem.outputText CODEX_SERVE_PROMPT_MARKER]]) ∧
    inject_developer_prompt
      ({ input := [ResponseItem.message none "developer"
            [ContentItem.outputText CODEX_SERVE_PROMPT_MARKER]],
         tools := [], parallel_tool_calls := false } : Prompt Unit)
      false none .overrideMode ≠
      ({ input := [ResponseItem.message none "developer"
            [ContentItem.outputText CODEX_SERVE_PROMPT_MARKER]],
         tools := [], parallel_tool_calls := false } : Prompt Unit) := by
  refine ⟨rfl, ?_⟩
  intro h
  have hlen := congrArg (fun p => p.input.length) h
  simp [inject_developer_prompt, has_existing_codex_serve_message] at hlen

/-- C7 (amended): `inject_developer_prompt` is idempotent across all modes
once the guard predicate holds: for every prompt that already contains a
developer-role message with an *input-text* part containing the
compatibility marker, any mode, any `has_web_search` value and any system
text leave the prompt unchanged. -/
theorem c7_amended_inject_idempotent {JS : Type} (prompt : Prompt JS)
    (has_web_search : Bool) (system_prompt : Option String) (mode : DeveloperPromptMode)
    (h : has_existing_codex_serve_message prompt = true) :
    inject_developer_prompt prompt has_web_search system_prompt mode = prompt := by
  unfold inject_developer_prompt
  cases mode with
  | disabled => simp
  | defaultMode =>
      by_cases hs : system_prompt.isSome
      · simp [hs]
      · simp [hs, h]
  | overrideMode => simp [h]

/-- Witness for C7 (amended): a concrete marker-carrying prompt in override
mode with a system text present. -/
theorem c7_amended_witness :
    (has_existing_codex_serve_message
      ({ input := [ResponseItem.message none "developer"
            [ContentItem.inputText CODEX_SERVE_PROMPT_MARKER]],
         tools := [], parallel_tool_calls := false } : Prompt Unit) = true) ∧
    inject_developer_prompt
      ({ input := [ResponseItem.message none "developer"
            [ContentItem.inputText CODEX_SERVE_PROMPT_MARKER]],
         tools := [], parallel_tool_calls := false } : Prompt Unit)
      true (some "sys") .overrideMode =
      ({ input := [ResponseItem.message none "developer"
            [ContentItem.inputText CODEX_SERVE_PROMPT_MARKER]],
         tools := [], parallel_tool_calls := false } : Prompt Unit) :=
  ⟨by decide,
    c7_amended_inject_idempotent
      ({ input := [ResponseItem.message none "developer"
            [ContentItem.inputText CODEX_SERVE_PROMPT_MARKER]],
         tools := [], parallel_tool_calls := false } : Prompt Unit)
      true (some "sys") .overrideMode (by decide)⟩

/-! ### `src/server/mod.rs`: the Streaming Aggregator (incremental mode)

Tool-call argument strings are indexed by *bytes* in the Rust code
(`String::len`, `full_arguments[prev_len..]`), so they are modelled as UTF-8
byte lists (`ByteStr`); call ids, names and roles are only compared for
equality and stay Lean `String`s.  `ResponseEvent`/`ResponseItem` come from
`codex_core`; the variants modelled are the ones this file matches.
`ResponseItem::WebSearchCall` is not modelled: `tool_call_from_item` gives it
a freshly generated UUID call id, which has no deterministic embedding, and
the streaming logic treats the resulting `ToolCall` exactly like the two
deterministic kinds.  The channel (`tx.send`) is modelled as always
accepting: a failed send only ends the loop early on client disconnect. -/

abbrev ByteStr := List Nat

/-- Rust `u8::is_utf8_char_boundary` (via `str::is_char_boundary`): index 0,
the length itself, or a byte that is not a UTF-8 continuation byte. -/
def isContByte (b : Nat) : Bool := 128 ≤ b && b < 192

def is_char_boundary (s : ByteStr) (i : Nat) : Bool :=
  if i = 0 then true
  else if i = s.length then true
  else if s.length < i then false
  else !isContByte (s.getD i 0)

/-- Byte length of a UTF-8 leading byte's encoding, `none` for bytes that
cannot start a character (continuation bytes and `0xF8`-`0xFF`). -/
def utf8CharLen (b : Nat) : Option Nat :=
  if b < 128 then some 1
  else if b < 192 then none
  else if b < 224 then some 2
  else if b < 240 then some 3
  else if b < 248 then some 4
  else none

/-- UTF-8 validity automaton: `k` pending continuation bytes. -/
def utf8ValidAux : Nat → List Nat → Bool
  | 0, [] => true
  | 0, b :: rest =>
      match utf8CharLen b with
      | none => false
      | some n => utf8ValidAux (n - 1) rest
  | _ + 1, [] => false
  | k + 1, b :: rest => isContByte b && utf8ValidAux k rest

def utf8Valid (s : ByteStr) : Bool := utf8ValidAux 0 s

structure SToolCallFunction where
  name : String
  arguments : ByteStr
  deriving DecidableEq

/-- Model of `response::ToolCall`; `ToolCall::new` always sets `call_type` to
`"function"`. -/
structure SToolCall where
  id : String
  call_type : String
  function : SToolCallFunction
  deriving DecidableEq

def SToolCall.new (id : String) (name : String) (arguments : ByteStr) : SToolCall :=
  { id := id, call_type := "function", function := { name := name, arguments := arguments } }

inductive SContentItem where
  | outputText (text : String)
  | inputText (text : String)
  | otherContent
  deriving DecidableEq

inductive SResponseItem where
  | message (role : String) (content : List SContentItem)
  | reasoning
  | functionCall (name : String) (arguments : ByteStr) (call_id : String)
  | customToolCall (name : String) (input : ByteStr) (call_id : String)
  | otherItem
  deriving DecidableEq

/-- Model of `tool_call_from_item` (`src/server/mod.rs`, lines 350-378), restricted
to the deterministic variants (see the section comment). -/
def tool_call_from_item : SResponseItem → Option SToolCall
  | .functionCall name arguments call_id => some (SToolCall.new call_id name arguments)
  | .customToolCall name input call_id => some (SToolCall.new call_id name input)
  | _ => none

/-- Modelled from the spec: `codex_core::compact::content_items_to_text` is
not under `src/`; per the spec a non-streamed assistant message's increment
carries "its full text", modelled as the concatenation of the text content
items, `none` when there are none.  The claims below never depend on the
exact text produced. -/
def content_items_to_text (content : List SContentItem) : Option String :=
  let texts := content.filterMap fun item =>
    match item with
    | .outputText text => some text
    | .inputText text => some text
    | .otherContent => none
  if texts.isEmpty then none else some (join_with "" texts)

/-- The delta object placed in a chunk's `choices[0].delta`, one constructor
per construction site in `forward_sse_events`/`tool_call_delta_chunk`. -/
inductive ChunkDelta where
  | contentDelta (role : Option String) (content : String)
  | toolCalls (index : Nat) (id : String) (call_type : String) (name : String)
      (arguments : ByteStr)
  | reasoningSummaryText (text : String)
  | reasoningContentText (text : String)
  | emptyDelta
  deriving DecidableEq

/-- One streamed chunk, the payload built by `chunk_event` (lines 805-841):
id, object tag (constant), created, model, one choice with a delta and a
finish reason, and the optional usage block. -/
structure Chunk where
  id : String
  created : Int
  model : String
  delta : ChunkDelta
  finish_reason : Option String
  usage : Option Usage
  deriving DecidableEq

def chunk_event (response_id : String) (created : Int) (model : String) (delta : ChunkDelta)
    (finish_reason : Option String) (usage : Option Usage) : Chunk :=
  { id := response_id, created := created, model := model, delta := delta,
    finish_reason := finish_reason, usage := usage }

/-- Model of `tool_call_delta_chunk` (lines 416-447). -/
def tool_call_delta_chunk (response_id : String) (created : Int) (model : String)
    (call : SToolCall) (index : Nat) : Chunk :=
  chunk_event response_id created model
    (.toolCalls index call.id call.call_type call.function.name call.function.arguments)
    none none

/-- The four pieces of `forward_sse_events` state that
`forward_tool_call_chunk` threads (lines 547-550). -/
structure ToolStreamState where
  tool_call_indices : List (String × Nat)
  next_tool_index : Nat
  streamed_tool_calls : List SToolCall
  tool_call_arg_progress : List (String × Nat)
  deriving DecidableEq

def initToolState : ToolStreamState :=
  { tool_call_indices := [], next_tool_index := 0, streamed_tool_calls := [],
    tool_call_arg_progress := [] }

/-- Body of `forward_tool_call_chunk` for a converted tool call
(lines 776-797): assign a stable index on first sight of the call id, emit
only the newly appended argument suffix when the argument string grew, and
record the call. -/
def forward_call_step (response_id : String) (created : Int) (response_model : String)
    (call : SToolCall) (st : ToolStreamState) : Option Chunk × ToolStreamState :=
  let indices :=
    if akey st.tool_call_indices call.id then st.tool_call_indices
    else ainsert st.tool_call_indices call.id st.next_tool_index
  let next_index :=
    if akey st.tool_call_indices call.id then st.next_tool_index
    else st.next_tool_index + 1
  let index := (alookup indices call.id).getD 0
  let full_arguments := call.function.arguments
  let prev_len := (alookup st.tool_call_arg_progress call.id).getD 0
  if full_arguments.length ≤ prev_len then
    (none, { st with tool_call_indices := indices, next_tool_index := next_index })
  else
    let delta := full_arguments.drop prev_len
    let delta_call :=
      { call with function := { call.function with arguments := delta } }
    (some (tool_call_delta_chunk response_id created response_model delta_call index),
     { tool_call_indices := indices
       next_tool_index := next_index
       streamed_tool_calls := st.streamed_tool_calls ++ [call]
       tool_call_arg_progress :=
         ainsert st.tool_call_arg_progress call.id full_arguments.length })

/-- Model of `forward_tool_call_chunk` (lines 760-803): skip reasoning items and
non-tool items, then run `forward_call_step` on the converted call. -/
def forward_tool_call_chunk (response_id : String) (created : Int) (response_model : String)
    (item : SResponseItem) (st : ToolStreamState) : Option Chunk × ToolStreamState :=
  match item with
  | .reasoning => (none, st)
  | _ =>
    match tool_call_from_item item with
    | none => (none, st)
    | some call => forward_call_step response_id created response_model call st

/-- Iterated `forward_tool_call_chunk` over a sequence of output items,
collecting the emitted chunks. -/
def run_tool_items (response_id : String) (created : Int) (response_model : String) :
    List SResponseItem → ToolStreamState → List Chunk × ToolStreamState
  | [], st => ([], st)
  | item :: rest, st =>
      let r := forward_tool_call_chunk response_id created response_model item st
      let rr := run_tool_items response_id created response_model rest r.2
      (r.1.toList ++ rr.1, rr.2)

/-- Argument strings of the tool-call items for one call id, in order. -/
def call_args_seq (c : String) (items : List SResponseItem) : List ByteStr :=
  items.filterMap fun item =>
    match tool_call_from_item item with
    | some call => if call.id == c then some call.function.arguments else none
    | none => none

/-- Argument deltas carried by the emitted chunks for one call id, in
emission order. -/
def tool_arg_deltas (c : String) (chunks : List Chunk) : List ByteStr :=
  chunks.filterMap fun ch =>
    match ch.delta with
    | .toolCalls _ id _ _ arguments => if id == c then some arguments else none
    | _ => none

/-- Model of `codex_core::ResponseEvent`, restricted to the variants matched by
`forward_sse_events`.  The stream yields `Result<ResponseEvent, _>`; the
error payload is only logged, so it is modelled as `Unit`. -/
inductive SResponseEvent where
  | outputTextDelta (delta : String)
  | outputItemAdded (item : SResponseItem)
  | outputItemDone (item : SResponseItem)
  | reasoningSummaryDelta (delta : String)
  | reasoningSummaryPartAdded
  | reasoningContentDelta (delta : String)
  | completed (response_id : String) (token_usage : Option TokenUsage)
  | rateLimits
  | createdEvent
  deriving DecidableEq

/-- The mutable locals of `forward_sse_events` (lines 534-550) that affect
the emitted chunks.  The verbose-logging buffers are omitted: they only feed
`tracing` log lines, never a chunk. -/
structure SseState where
  stream_response_id : String
  sent_role : Bool
  usage : Usage
  text_deltas_since_last_message : Bool
  tools : ToolStreamState
  deriving DecidableEq

def initSseState : SseState :=
  { stream_response_id := "resp_stream", sent_role := false,
    usage := { prompt_tokens := 0, completion_tokens := 0, total_tokens := 0 },
    text_deltas_since_last_message := false, tools := initToolState }

/-- The loop of `forward_sse_events` (lines 552-754) over the event
sequence, returning the chunks sent in order together with the final state.
Processing stops after a `completed` event or a stream error, exactly as the
Rust loop `break`s. -/
def forward_sse_events (created : Int) (response_model : String) :
    List (Except Unit SResponseEvent) → SseState → List Chunk × SseState
  | [], st => ([], st)
  | .error _ :: _, st =>
      ([chunk_event st.stream_response_id created response_model .emptyDelta
          (some "error") none], st)
  | .ok ev :: rest, st =>
      match ev with
      | .outputTextDelta delta =>
          let role := if st.sent_role then none else some "assistant"
          let chunk := chunk_event st.stream_response_id created response_model
            (.contentDelta role delta) none none
          let st1 := { st with sent_role := true, text_deltas_since_last_message := true }
          let rr := forward_sse_events created response_model rest st1
          (chunk :: rr.1, rr.2)
      | .outputItemAdded item =>
          match item with
          | .message _ _ => forward_sse_events created response_model rest st
          | _ =>
              let r := forward_tool_call_chunk st.stream_response_id created
                response_model item st.tools
              let rr := forward_sse_events created response_model rest
                { st with tools := r.2 }
              (r.1.toList ++ rr.1, rr.2)
      | .outputItemDone item =>
          match item with
          | .message role content =>
              match (if role == "assistant" && !st.text_deltas_since_last_message then
                  (content_items_to_text content).filter
                    (fun text => !(trim_str text).data.isEmpty)
                else none) with
              | some text =>
                  let roleField := if st.sent_role then none else some "assistant"
                  let chunk := chunk_event st.stream_response_id created response_model
                    (.contentDelta roleField text) none none
                  let st1 :=
                    { st with sent_role := true, text_deltas_since_last_message := false }
                  let rr := forward_sse_events created response_model rest st1
                  (chunk :: rr.1, rr.2)
              | none =>
                  forward_sse_events created response_model rest
                    { st with text_deltas_since_last_message := false }
          | _ =>
              let r := forward_tool_call_chunk st.stream_response_id created
                response_model item st.tools
              let rr := forward_sse_events created response_model rest
                { st with tools := r.2 }
              (r.1.toList ++ rr.1, rr.2)
      | .reasoningSummaryDelta delta =>
          let chunk := chunk_event st.stream_response_id created response_model
            (.reasoningSummaryText delta) none none
          let rr := forward_sse_events created response_model rest st
          (chunk :: rr.1, rr.2)
      | .reasoningSummaryPartAdded => forward_sse_events created response_model rest st
      | .reasoningContentDelta delta =>
          let chunk := chunk_event st.stream_response_id created response_model
            (.reasoningContentText delta) none none
          let rr := forward_sse_events created response_model rest st
          (chunk :: rr.1, rr.2)
      | .completed rid token_usage =>
          let usage :=
            match token_usage with
            | some tokens => usageFromTokenUsage tokens
            | none => st.usage
          let finish_reason :=
            if !st.tools.streamed_tool_calls.isEmpty then "tool_calls" else "stop"
          ([chunk_event rid created response_model .emptyDelta (some finish_reason)
              (some usage)],
           { st with stream_response_id := rid, usage := usage })
      | .rateLimits => forward_sse_events created response_model rest st
      | .createdEvent => forward_sse_events created response_model rest st

/-- An event on which the `forward_sse_events` loop stops. -/
def isTerminalEvt : Except Unit SResponseEvent → Bool
  | .error _ => true
  | .ok (.completed _ _) => true
  | _ => false

/-! ### Prefix and UTF-8 lemmas for the streamed argument strings -/

theorem isPrefixOf_exists {p q : ByteStr} (h : p.isPrefixOf q = true) :
    ∃ t, q = p ++ t := by
  induction p generalizing q with
  | nil => exact ⟨q, rfl⟩
  | cons a as ih =>
      cases q with
      | nil => simp [List.isPrefixOf] at h
      | cons b bs =>
          simp only [List.isPrefixOf, Bool.and_eq_true, beq_iff_eq] at h
          obtain ⟨hab, hrest⟩ := h
          obtain ⟨t, ht⟩ := ih hrest
          exact ⟨t, by simp [hab, ht]⟩

theorem eq_of_isPrefixOf_length_le {p q : ByteStr} (h : p.isPrefixOf q = true)
    (hlen : q.length ≤ p.length) : q = p := by
  obtain ⟨t, rfl⟩ := isPrefixOf_exists h
  have ht : t.length = 0 := by
    rw [List.length_append] at hlen
    omega
  have : t = [] := List.eq_nil_of_length_eq_zero ht
  simp [this]

theorem utf8CharLen_isContByte {b : Nat} {n : Nat} (h : utf8CharLen b = some n) :
    isContByte b = false := by
  unfold utf8CharLen at h
  split_ifs at h <;>
    (simp only [isContByte, Bool.and_eq_false_iff, decide_eq_false_iff_not]
     omega)

theorem utf8_append_head_not_cont :
    ∀ (s : List Nat) (k : Nat) (t : List Nat), utf8ValidAux k s = true →
      utf8ValidAux k (s ++ t) = true → t = [] ∨ isContByte (t.headD 0) = false := by
  intro s
  induction s with
  | nil =>
      intro k t h1 h2
      cases k with
      | succ k => simp [utf8ValidAux] at h1
      | zero =>
          cases t with
          | nil => exact Or.inl rfl
          | cons b bs =>
              right
              simp only [List.nil_append] at h2
              unfold utf8ValidAux at h2
              cases hcl : utf8CharLen b with
              | none => rw [hcl] at h2; simp at h2
              | some n => exact utf8CharLen_isContByte hcl
  | cons b bs ih =>
      intro k t h1 h2
      rw [List.cons_append] at h2
      cases k with
      | zero =>
          unfold utf8ValidAux at h1 h2
          cases hcl : utf8CharLen b with
          | none => rw [hcl] at h1; simp at h1
          | some n =>
              rw [hcl] at h1 h2
              exact ih (n - 1) t h1 h2
      | succ k =>
          unfold utf8ValidAux at h1 h2
          simp only [Bool.and_eq_true] at h1 h2
          exact ih k t h1.2 h2.2

theorem getD_append_self (p : List Nat) (b : Nat) (bs : List Nat) :
    (p ++ b :: bs).getD p.length 0 = b := by
  induction p with
  | nil => simp
  | cons x xs ih => simpa using ih

theorem boundary_from_prefix_valid (p q : ByteStr) (hpre : p.isPrefixOf q = true)
    (hvp : utf8Valid p = true) (hvq : utf8Valid q = true) :
    is_char_boundary q p.length = true := by
  obtain ⟨t, rfl⟩ := isPrefixOf_exists hpre
  rcases utf8_append_head_not_cont p 0 t hvp hvq with ht | hcont
  · subst ht
    simp [is_char_boundary]
  · cases t with
    | nil => simp [is_char_boundary]
    | cons b bs =>
        simp only [List.headD_cons] at hcont
        by_cases hp0 : p.length = 0
        · simp [is_char_boundary, hp0]
        · have hne : ¬p.length = (p ++ b :: bs).length := by
            rw [List.length_append, List.length_cons]
            omega
          have hnlt : ¬(p ++ b :: bs).length < p.length := by
            rw [List.length_append, List.length_cons]
            omega
          unfold is_char_boundary
          rw [if_neg hp0, if_neg hne, if_neg hnlt, getD_append_self]
          simp [hcont]

/-! ### Claim C1: per-call-id argument delta reconstruction

The induction invariant: `p` is the argument string whose length the
progress map currently records for call id `c` (the empty string when the
id is unseen), every later occurrence extends its predecessor, and then the
concatenated deltas rebuild exactly the last occurrence's full string. -/

theorem call_args_seq_cons_none {item : SResponseItem} (c : String)
    (rest : List SResponseItem) (h : tool_call_from_item item = none) :
    call_args_seq c (item :: rest) = call_args_seq c rest := by
  simp [call_args_seq, List.filterMap_cons, h]

theorem call_args_seq_cons_some {item : SResponseItem} {call : SToolCall} (c : String)
    (rest : List SResponseItem) (h : tool_call_from_item item = some call) :
    call_args_seq c (item :: rest) =
      (if call.id == c then call.function.arguments :: call_args_seq c rest
       else call_args_seq c rest) := by
  simp only [call_args_seq, List.filterMap_cons, h]
  by_cases hc : call.id == c
  · simp [hc]
  · simp [hc]

theorem forward_chunk_none (rid : String) (created : Int) (model : String)
    {item : SResponseItem} (st : ToolStreamState) (h : tool_call_from_item item = none) :
    forward_tool_call_chunk rid created model item st = (none, st) := by
  cases item <;> simp_all [forward_tool_call_chunk, tool_call_from_item]

theorem forward_chunk_some (rid : String) (created : Int) (model : String)
    {item : SResponseItem} {call : SToolCall} (st : ToolStreamState)
    (h : tool_call_from_item item = some call) :
    forward_tool_call_chunk rid created model item st =
      forward_call_step rid created model call st := by
  cases item <;> simp_all [forward_tool_call_chunk, tool_call_from_item]

theorem run_tool_args_aux (rid : String) (created : Int) (model : String) (c : String)
    (L : List SResponseItem) :
    ∀ (st : ToolStreamState) (p : ByteStr),
      (alookup st.tool_call_arg_progress c).getD 0 = p.length →
      List.Chain' (fun a b => a.isPrefixOf b = true) (p :: call_args_seq c L) →
      (p ++ (tool_arg_deltas c (run_tool_items rid created model L st).1).flatten =
        (call_args_seq c L).getLastD p) ∧
      ((alookup (run_tool_items rid created model L st).2.tool_call_arg_progress c).getD 0 =
        ((call_args_seq c L).getLastD p).length) := by
  induction L with
  | nil =>
      intro st p hprog _
      simp [run_tool_items, call_args_seq, tool_arg_deltas, hprog]
  | cons item rest ih =>
      intro st p hprog hchain
      cases htc : tool_call_from_item item with
      | none =>
          rw [call_args_seq_cons_none c rest htc] at hchain ⊢
          simp only [run_tool_items, forward_chunk_none rid created model st htc]
          simpa using ih st p hprog hchain
      | some call =>
          simp only [run_tool_items, forward_chunk_some rid created model st htc]
          by_cases hcid : call.id = c
          · rw [call_args_seq_cons_some c rest htc, if_pos (by simp [hcid])] at hchain ⊢
            rw [List.chain'_cons] at hchain
            obtain ⟨hpa, hchain2⟩ := hchain
            by_cases hle : call.function.arguments.length ≤ p.length
            · have hqe : call.function.arguments = p := eq_of_isPrefixOf_length_le hpa hle
              rw [hqe] at hchain2
              simp only [forward_call_step, hcid, hprog, hqe]
              rw [if_pos le_rfl]
              simp only [Option.toList, List.nil_append, List.getLastD_cons, hqe]
              exact ih _ p hprog hchain2
            · push_neg at hle
              obtain ⟨t, ht⟩ := isPrefixOf_exists hpa
              simp only [forward_call_step, hcid, hprog]
              rw [if_neg (by omega)]
              have hrec := ih
                { tool_call_indices :=
                    if akey st.tool_call_indices c then st.tool_call_indices
                    else ainsert st.tool_call_indices c st.next_tool_index
                  next_tool_index :=
                    if akey st.tool_call_indices c then st.next_tool_index
                    else st.next_tool_index + 1
                  streamed_tool_calls := st.streamed_tool_calls ++ [call]
                  tool_call_arg_progress :=
                    ainsert st.tool_call_arg_progress c call.function.arguments.length }
                call.function.arguments (by simp [alookup_ainsert_self]) hchain2
              simp only [Option.toList, List.singleton_append, List.getLastD_cons]
              simp only [tool_arg_deltas, List.filterMap_cons, tool_call_delta_chunk,
                chunk_event] at hrec ⊢
              rw [if_pos (show (c == c) = true by simp)]
              have hpd : p ++ List.drop (List.length p) call.function.arguments =
                  call.function.arguments := by
                rw [ht, List.drop_left]
              rw [List.flatten_cons, ← List.append_assoc, hpd]
              exact hrec
          · rw [call_args_seq_cons_some c rest htc,
              if_neg (by simp [hcid])] at hchain ⊢
            by_cases hle : call.function.arguments.length ≤
                (alookup st.tool_call_arg_progress call.id).getD 0
            · simp only [forward_call_step]
              rw [if_pos hle]
              simpa using ih _ p (by simpa using hprog) hchain
            · simp only [forward_call_step]
              rw [if_neg hle]
              have hprog2 :
                  (alookup (ainsert st.tool_call_arg_progress call.id
                    call.function.arguments.length) c).getD 0 = p.length := by
                rw [alookup_ainsert_ne _ _ _ _ (fun e => hcid e.symm)]
                exact hprog
              have hrec := ih
                { tool_call_indices :=
                    if akey st.tool_call_indices call.id then st.tool_call_indices
                    else ainsert st.tool_call_indices call.id st.next_tool_index
                  next_tool_index :=
                    if akey st.tool_call_indices call.id then st.next_tool_index
                    else st.next_tool_index + 1
                  streamed_tool_calls := st.streamed_tool_calls ++ [call]
                  tool_call_arg_progress :=
                    ainsert st.tool_call_arg_progress call.id
                      call.function.arguments.length }
                p hprog2 hchain
              simp only [Option.toList, List.singleton_append]
              simp only [tool_arg_deltas, List.filterMap_cons, tool_call_delta_chunk,
                chunk_event] at hrec ⊢
              have hcid' : (call.id == c) = false := by simp [hcid]
              simp only [hcid', Bool.false_eq_true, if_false] at hrec ⊢
              exact hrec

/-- C1 (confirmed): in incremental (streaming) mode, for every call id, the
tool-call argument deltas emitted by `forward_tool_call_chunk`, concatenated
in emission order, reconstruct exactly the final full argument string of
that call with no gaps and no repeats: each emitted increment carries only
the newly appended suffix relative to the previously emitted length, given
that each occurrence of the call id extends the previous argument string by
appending (the regime in which "newly appended suffix" is defined). -/
theorem c1_tool_call_deltas_reconstruct (rid : String) (created : Int) (model : String)
    (c : String) (L : List SResponseItem)
    (hchain : List.Chain' (fun a b => a.isPrefixOf b = true) (call_args_seq c L)) :
    (tool_arg_deltas c (run_tool_items rid created model L initToolState).1).flatten =
      (call_args_seq c L).getLastD [] := by
  have h := run_tool_args_aux rid created model c L initToolState []
    (by simp [initToolState, alookup])
    (List.chain'_cons'.mpr ⟨fun b _ => by cases b <;> rfl, hchain⟩)
  simpa using h.1

/-- Witness for C1: two growing occurrences of one call id. -/
theorem c1_witness :
    List.Chain' (fun (a b : ByteStr) => a.isPrefixOf b = true)
      (call_args_seq "c1" [SResponseItem.functionCall "f" [97] "c1",
        SResponseItem.functionCall "f" [97, 98, 99] "c1"]) ∧
    (tool_arg_deltas "c1" (run_tool_items "r" 0 "m"
        [SResponseItem.functionCall "f" [97] "c1",
         SResponseItem.functionCall "f" [97, 98, 99] "c1"] initToolState).1).flatten =
      (call_args_seq "c1" [SResponseItem.functionCall "f" [97] "c1",
        SResponseItem.functionCall "f" [97, 98, 99] "c1"]).getLastD [] :=
  ⟨by simp [call_args_seq, tool_call_from_item, SToolCall.new, List.chain'_cons,
      List.isPrefixOf],
    c1_tool_call_deltas_reconstruct "r" 0 "m" "c1" _
      (by simp [call_args_seq, tool_call_from_item, SToolCall.new, List.chain'_cons,
        List.isPrefixOf])⟩

/-- C9 (confirmed): (i) a tool-call item whose argument string is not
strictly longer in bytes than the length previously recorded for the same
call id produces no increment, is not added to the streamed tool-call list,
and leaves the progress map unchanged; (ii) a call id whose every occurrence
carries an empty argument string is never emitted and never enters the
streamed tool-call list, so it cannot contribute to choosing the
`tool_calls` finish reason. -/
theorem c9_short_arguments_produce_nothing (rid : String) (created : Int) (model : String) :
    (∀ (item : SResponseItem) (st : ToolStreamState) (call : SToolCall),
      tool_call_from_item item = some call →
      call.function.arguments.length ≤
        (alookup st.tool_call_arg_progress call.id).getD 0 →
      (forward_tool_call_chunk rid created model item st).1 = none ∧
      (forward_tool_call_chunk rid created model item st).2.streamed_tool_calls =
        st.streamed_tool_calls ∧
      (forward_tool_call_chunk rid created model item st).2.tool_call_arg_progress =
        st.tool_call_arg_progress) ∧
    (∀ (L : List SResponseItem) (c : String),
      (∀ a ∈ call_args_seq c L, a = ([] : ByteStr)) →
      tool_arg_deltas c (run_tool_items rid created model L initToolState).1 = [] ∧
      ∀ call ∈ (run_tool_items rid created model L initToolState).2.streamed_tool_calls,
        ¬call.id = c) := by
  have aux : ∀ (L : List SResponseItem) (c : String) (st : ToolStreamState),
      (∀ a ∈ call_args_seq c L, a = ([] : ByteStr)) →
      (∀ call ∈ st.streamed_tool_calls, ¬call.id = c) →
      tool_arg_deltas c (run_tool_items rid created model L st).1 = [] ∧
      ∀ call ∈ (run_tool_items rid created model L st).2.streamed_tool_calls,
        ¬call.id = c := by
    intro L
    induction L with
    | nil =>
        intro c st _ hst
        exact ⟨by simp [run_tool_items, tool_arg_deltas],
          by simpa [run_tool_items] using hst⟩
    | cons item rest ih =>
        intro c st hargs hst
        cases htc : tool_call_from_item item with
        | none =>
            rw [call_args_seq_cons_none c rest htc] at hargs
            simp only [run_tool_items, forward_chunk_none rid created model st htc]
            simpa using ih c st hargs hst
        | some call =>
            simp only [run_tool_items, forward_chunk_some rid created model st htc]
            by_cases hcid : call.id = c
            · have hargs' := hargs
              rw [call_args_seq_cons_some c rest htc, if_pos (by simp [hcid])] at hargs'
              have hempty : call.function.arguments = [] := hargs' _ (by simp)
              have hrest : ∀ a ∈ call_args_seq c rest, a = ([] : ByteStr) :=
                fun a ha => hargs' a (by simp [ha])
              simp only [forward_call_step]
              rw [if_pos (by rw [hempty]; simp)]
              simpa using ih c _ hrest (by simpa using hst)
            · have hrest : ∀ a ∈ call_args_seq c rest, a = ([] : ByteStr) := by
                rw [call_args_seq_cons_some c rest htc, if_neg (by simp [hcid])] at hargs
                exact hargs
              simp only [forward_call_step]
              by_cases hle : call.function.arguments.length ≤
                  (alookup st.tool_call_arg_progress call.id).getD 0
              · rw [if_pos hle]
                simpa using ih c _ hrest (by simpa using hst)
              · rw [if_neg hle]
                have hst' : ∀ cl ∈ st.streamed_tool_calls ++ [call], ¬cl.id = c := by
                  intro cl hcl
                  rcases List.mem_append.mp hcl with h | h
                  · exact hst cl h
                  · simp only [List.mem_singleton] at h
                    subst h
                    exact hcid
                have hr := ih c
                  { tool_call_indices :=
                      if akey st.tool_call_indices call.id then st.tool_call_indices
                      else ainsert st.tool_call_indices call.id st.next_tool_index
                    next_tool_index :=
                      if akey st.tool_call_indices call.id then st.next_tool_index
                      else st.next_tool_index + 1
                    streamed_tool_calls := st.streamed_tool_calls ++ [call]
                    tool_call_arg_progress :=
                      ainsert st.tool_call_arg_progress call.id
                        call.function.arguments.length }
                  hrest (by simpa using hst')
                simp only [Option.toList, List.singleton_append]
                simp only [tool_arg_deltas, List.filterMap_cons, tool_call_delta_chunk,
                  chunk_event] at hr ⊢
                have hcid' : (call.id == c) = false := by simp [hcid]
                simp only [hcid', Bool.false_eq_true, if_false]
                exact hr
  constructor
  · intro item st call htc hle
    rw [forward_chunk_some rid created model st htc]
    simp only [forward_call_step]
    rw [if_pos hle]
    exact ⟨rfl, rfl, rfl⟩
  · intro L c h
    exact aux L c initToolState h (by simp [initToolState])

/-- Witness for C9: an equal-length (empty) argument occurrence at the step
level, and a call id with only empty-argument occurrences at the run
level. -/
theorem c9_witness :
    (tool_call_from_item (SResponseItem.functionCall "f" [] "c0") =
      some (SToolCall.new "c0" "f" [])) ∧
    ((SToolCall.new "c0" "f" []).function.arguments.length ≤
      (alookup initToolState.tool_call_arg_progress (SToolCall.new "c0" "f" []).id).getD 0) ∧
    ((forward_tool_call_chunk "r" 0 "m" (SResponseItem.functionCall "f" [] "c0")
        initToolState).1 = none ∧
      (forward_tool_call_chunk "r" 0 "m" (SResponseItem.functionCall "f" [] "c0")
        initToolState).2.streamed_tool_calls = initToolState.streamed_tool_calls ∧
      (forward_tool_call_chunk "r" 0 "m" (SResponseItem.functionCall "f" [] "c0")
        initToolState).2.tool_call_arg_progress =
        initToolState.tool_call_arg_progress) ∧
    (tool_arg_deltas "c0" (run_tool_items "r" 0 "m"
        [SResponseItem.functionCall "f" [] "c0"] initToolState).1 = [] ∧
      ∀ call ∈ (run_tool_items "r" 0 "m" [SResponseItem.functionCall "f" [] "c0"]
          initToolState).2.streamed_tool_calls, ¬call.id = "c0") :=
  ⟨rfl, by decide,
    (c9_short_arguments_produce_nothing "r" 0 "m").1
      (SResponseItem.functionCall "f" [] "c0") initToolState
      (SToolCall.new "c0" "f" []) rfl (by decide),
    (c9_short_arguments_produce_nothing "r" 0 "m").2
      [SResponseItem.functionCall "f" [] "c0"] "c0" (by decide)⟩

/-- C8 (corrected): counterexample — the byte index recorded from an
earlier item's argument length need not fall on a UTF-8 character boundary
of a later item's argument string.  After streaming arguments `[0x61]`
("a") for call id `c`, the recorded length is 1; a later item carrying
`[0xC3, 0xA9, 0x21]` ("é!") is longer, and index 1 lands in the middle of
the two-byte character `é` (byte `0xA9` is a continuation byte), so the
Rust slice `full_arguments[prev_len..]` would panic there. -/
theorem c8_counterexample_mid_character_index :
    ((alookup (run_tool_items "r" 0 "m" [SResponseItem.functionCall "f" [97] "c"]
        initToolState).2.tool_call_arg_progress "c").getD 0 = 1) ∧
    (tool_call_from_item (SResponseItem.functionCall "f" [195, 169, 33] "c") =
      some (SToolCall.new "c" "f" [195, 169, 33])) ∧
    (1 < ([195, 169, 33] : ByteStr).length) ∧
    is_char_boundary [195, 169, 33] 1 = false := by
  decide

/-- C8 (amended): computing the newly appended argument suffix never slices
mid-character *provided* the per-call-id argument strings are valid UTF-8
and each later occurrence extends the earlier one as a byte prefix (the
invariant Rust `String`s streamed as growing snapshots satisfy): the byte
index recorded from the earlier items always falls on a UTF-8 character
boundary of the next item's argument string, so
`full_arguments[prev_len..]` is well-defined. -/
theorem c8_amended_slice_on_char_boundary (rid : String) (created : Int) (model : String)
    (c : String) (L1 : List SResponseItem) (item : SResponseItem) (call : SToolCall)
    (htc : tool_call_from_item item = some call) (hid : call.id = c)
    (hchain : List.Chain' (fun a b => a.isPrefixOf b = true)
      (call_args_seq c (L1 ++ [item])))
    (hvalid : ∀ a ∈ call_args_seq c (L1 ++ [item]), utf8Valid a = true) :
    is_char_boundary call.function.arguments
      ((alookup (run_tool_items rid created model L1
        initToolState).2.tool_call_arg_progress c).getD 0) = true := by
  have hseqapp : call_args_seq c (L1 ++ [item]) =
      call_args_seq c L1 ++ [call.function.arguments] := by
    simp [call_args_seq, List.filterMap_append, List.filterMap_cons, htc, hid]
  rw [hseqapp] at hchain hvalid
  have hchain1 : List.Chain' (fun a b => a.isPrefixOf b = true) (call_args_seq c L1) :=
    hchain.left_of_append
  have haux := run_tool_args_aux rid created model c L1 initToolState []
    (by simp [initToolState, alookup])
    (List.chain'_cons'.mpr ⟨fun b _ => by cases b <;> rfl, hchain1⟩)
  rw [haux.2]
  have hva : utf8Valid call.function.arguments = true :=
    hvalid _ (List.mem_append_right _ (by simp))
  cases hs : call_args_seq c L1 with
  | nil =>
      simp only [hs, List.getLastD_nil]
      exact boundary_from_prefix_valid [] call.function.arguments
        (by cases call.function.arguments <;> rfl) rfl hva
  | cons x xs =>
      have hgl : (x :: xs).getLast? = some ((x :: xs).getLastD []) := by
        rw [List.getLast?_cons, List.getLastD_eq_getLast?, List.getLast?_cons]
        rfl
      have hmem : (x :: xs).getLastD [] ∈ x :: xs := by
        rw [List.getLastD_eq_getLast?, List.getLast?_eq_getLast (x :: xs) (by simp)]
        exact List.getLast_mem _
      rw [hs] at hchain hvalid
      have hvp : utf8Valid ((x :: xs).getLastD []) = true :=
        hvalid _ (List.mem_append_left _ hmem)
      have hrel := (List.chain'_append.mp hchain).2.2
      have hpre : ((x :: xs).getLastD []).isPrefixOf call.function.arguments = true := by
        apply hrel
        · exact hgl
        · simp
      exact boundary_from_prefix_valid _ _ hpre hvp hva

/-- Witness for C8 (amended): valid UTF-8 arguments growing from "é" to
"éa". -/
theorem c8_amended_witness :
    (tool_call_from_item (SResponseItem.functionCall "f" [195, 169, 97] "c2") =
      some (SToolCall.new "c2" "f" [195, 169, 97])) ∧
    ((SToolCall.new "c2" "f" [195, 169, 97]).id = "c2") ∧
    List.Chain' (fun (a b : ByteStr) => a.isPrefixOf b = true)
      (call_args_seq "c2" ([SResponseItem.functionCall "f" [195, 169] "c2"] ++
        [SResponseItem.functionCall "f" [195, 169, 97] "c2"])) ∧
    (∀ a ∈ call_args_seq "c2" ([SResponseItem.functionCall "f" [195, 169] "c2"] ++
        [SResponseItem.functionCall "f" [195, 169, 97] "c2"]), utf8Valid a = true) ∧
    is_char_boundary (SToolCall.new "c2" "f" [195, 169, 97]).function.arguments
      ((alookup (run_tool_items "r" 0 "m" [SResponseItem.functionCall "f" [195, 169] "c2"]
        initToolState).2.tool_call_arg_progress "c2").getD 0) = true :=
  ⟨rfl, rfl,
    by simp [call_args_seq, tool_call_from_item, SToolCall.new, List.chain'_cons,
      List.isPrefixOf],
    by decide,
    c8_amended_slice_on_char_boundary "r" 0 "m" "c2"
      [SResponseItem.functionCall "f" [195, 169] "c2"]
      (SResponseItem.functionCall "f" [195, 169, 97] "c2")
      (SToolCall.new "c2" "f" [195, 169, 97]) rfl rfl
      (by simp [call_args_seq, tool_call_from_item, SToolCall.new, List.chain'_cons,
        List.isPrefixOf])
      (by decide)⟩

theorem forward_chunk_usage_none (rid : String) (created : Int) (model : String)
    (item : SResponseItem) (st : ToolStreamState) (ch : Chunk)
    (h : (forward_tool_call_chunk rid created model item st).1 = some ch) :
    ch.usage = none := by
  cases htc : tool_call_from_item item with
  | none =>
      rw [forward_chunk_none rid created model st htc] at h
      simp at h
  | some call =>
      rw [forward_chunk_some rid created model st htc] at h
      simp only [forward_call_step] at h
      by_cases hle : call.function.arguments.length ≤
          (alookup st.tool_call_arg_progress call.id).getD 0
      · rw [if_pos hle] at h
        simp at h
      · rw [if_neg hle] at h
        simp only [Option.some.injEq] at h
        rw [← h]
        rfl

/-- C4 (confirmed): when the engine emits a `completed` event (and no
earlier terminal event occurred), the forwarder emits exactly the chunks of
the preceding events followed by one final increment that carries the usage
block and a finish reason of `tool_calls` if at least one tool call was
streamed and `stop` otherwise, and then terminates the sequence (events
after `completed` contribute nothing); no increment other than this final
one carries a usage block. -/
theorem c4_completed_final_increment (created : Int) (model : String)
    (pre rest : List (Except Unit SResponseEvent)) (rid : String)
    (tu : Option TokenUsage) (st : SseState)
    (hpre : ∀ e ∈ pre, isTerminalEvt e = false) :
    ((forward_sse_events created model
        (pre ++ .ok (.completed rid tu) :: rest) st).1 =
      (forward_sse_events created model pre st).1 ++
        [chunk_event rid created model .emptyDelta
          (some (if !(forward_sse_events created model pre
                st).2.tools.streamed_tool_calls.isEmpty
              then "tool_calls" else "stop"))
          (some (match tu with
            | some tokens => usageFromTokenUsage tokens
            | none => (forward_sse_events created model pre st).2.usage))]) ∧
    ∀ ch ∈ (forward_sse_events created model pre st).1, ch.usage = none := by
  induction pre generalizing st with
  | nil =>
      constructor
      · simp [forward_sse_events]
      · intro ch hch
        simp [forward_sse_events] at hch
  | cons e pre' ih =>
      have he : isTerminalEvt e = false := hpre e (by simp)
      have hpre' : ∀ x ∈ pre', isTerminalEvt x = false := fun x hx => hpre x (by simp [hx])
      cases e with
      | error u => simp [isTerminalEvt] at he
      | ok ev =>
          cases ev with
          | completed r t => simp [isTerminalEvt] at he
          | outputTextDelta d =>
              obtain ⟨ih1, ih2⟩ := ih
                { st with sent_role := true, text_deltas_since_last_message := true } hpre'
              constructor
              · simp only [List.cons_append, List.append_eq, forward_sse_events]
                rw [ih1]
              · intro ch hch
                simp only [forward_sse_events] at hch
                rcases List.mem_cons.mp hch with h | h
                · rw [h]
                  rfl
                · exact ih2 ch h
          | reasoningSummaryDelta d =>
              obtain ⟨ih1, ih2⟩ := ih st hpre'
              constructor
              · simp only [List.cons_append, List.append_eq, forward_sse_events]
                rw [ih1]
              · intro ch hch
                simp only [forward_sse_events] at hch
                rcases List.mem_cons.mp hch with h | h
                · rw [h]
                  rfl
                · exact ih2 ch h
          | reasoningContentDelta d =>
              obtain ⟨ih1, ih2⟩ := ih st hpre'
              constructor
              · simp only [List.cons_append, List.append_eq, forward_sse_events]
                rw [ih1]
              · intro ch hch
                simp only [forward_sse_events] at hch
                rcases List.mem_cons.mp hch with h | h
                · rw [h]
                  rfl
                · exact ih2 ch h
          | reasoningSummaryPartAdded =>
              obtain ⟨ih1, ih2⟩ := ih st hpre'
              exact ⟨by simp only [List.cons_append, List.append_eq, forward_sse_events]; rw [ih1],
                fun ch hch => ih2 ch (by simpa [forward_sse_events] using hch)⟩
          | rateLimits =>
              obtain ⟨ih1, ih2⟩ := ih st hpre'
              exact ⟨by simp only [List.cons_append, List.append_eq, forward_sse_events]; rw [ih1],
                fun ch hch => ih2 ch (by simpa [forward_sse_events] using hch)⟩
          | createdEvent =>
              obtain ⟨ih1, ih2⟩ := ih st hpre'
              exact ⟨by simp only [List.cons_append, List.append_eq, forward_sse_events]; rw [ih1],
                fun ch hch => ih2 ch (by simpa [forward_sse_events] using hch)⟩
          | outputItemAdded item =>
              cases item with
              | message role content =>
                  obtain ⟨ih1, ih2⟩ := ih st hpre'
                  exact ⟨by simp only [List.cons_append, List.append_eq, forward_sse_events]; rw [ih1],
                    fun ch hch => ih2 ch (by simpa [forward_sse_events] using hch)⟩
              | reasoning =>
                  obtain ⟨ih1, ih2⟩ := ih
                    { st with tools := (forward_tool_call_chunk st.stream_response_id created
                        model SResponseItem.reasoning st.tools).2 } hpre'
                  constructor
                  · simp only [List.cons_append, List.append_eq, forward_sse_events]
                    rw [ih1, List.append_assoc]
                  · intro ch hch
                    simp only [forward_sse_events] at hch
                    rcases List.mem_append.mp hch with h | h
                    · rcases Option.mem_toList.mp h with hsome
                      exact forward_chunk_usage_none _ _ _ _ _ _ hsome
                    · exact ih2 ch h
              | functionCall nm args cid =>
                  obtain ⟨ih1, ih2⟩ := ih
                    { st with tools := (forward_tool_call_chunk st.stream_response_id created
                        model (SResponseItem.functionCall nm args cid) st.tools).2 } hpre'
                  constructor
                  · simp only [List.cons_append, List.append_eq, forward_sse_events]
                    rw [ih1, List.append_assoc]
                  · intro ch hch
                    simp only [forward_sse_events] at hch
                    rcases List.mem_append.mp hch with h | h
                    · rcases Option.mem_toList.mp h with hsome
                      exact forward_chunk_usage_none _ _ _ _ _ _ hsome
                    · exact ih2 ch h
              | customToolCall nm args cid =>
                  obtain ⟨ih1, ih2⟩ := ih
                    { st with tools := (forward_tool_call_chunk st.stream_response_id created
                        model (SResponseItem.customToolCall nm args cid) st.tools).2 } hpre'
                  constructor
                  · simp only [List.cons_append, List.append_eq, forward_sse_events]
                    rw [ih1, List.append_assoc]
                  · intro ch hch
                    simp only [forward_sse_events] at hch
                    rcases List.mem_append.mp hch with h | h
                    · rcases Option.mem_toList.mp h with hsome
                      exact forward_chunk_usage_none _ _ _ _ _ _ hsome
                    · exact ih2 ch h
              | otherItem =>
                  obtain ⟨ih1, ih2⟩ := ih
                    { st with tools := (forward_tool_call_chunk st.stream_response_id created
                        model SResponseItem.otherItem st.tools).2 } hpre'
                  constructor
                  · simp only [List.cons_append, List.append_eq, forward_sse_events]
                    rw [ih1, List.append_assoc]
                  · intro ch hch
                    simp only [forward_sse_events] at hch
                    rcases List.mem_append.mp hch with h | h
                    · rcases Option.mem_toList.mp h with hsome
                      exact forward_chunk_usage_none _ _ _ _ _ _ hsome
                    · exact ih2 ch h
          | outputItemDone item =>
              cases item with
              | message role content =>
                  cases het : (if role == "assistant" && !st.text_deltas_since_last_message
                      then (content_items_to_text content).filter
                        (fun text => !(trim_str text).data.isEmpty)
                      else none) with
                  | some text =>
                      obtain ⟨ih1, ih2⟩ := ih
                        { st with sent_role := true, text_deltas_since_last_message := false }
                        hpre'
                      constructor
                      · simp only [List.cons_append, List.append_eq, forward_sse_events, het]
                        rw [ih1]
                      · intro ch hch
                        simp only [forward_sse_events, het] at hch
                        rcases List.mem_cons.mp hch with h | h
                        · rw [h]
                          rfl
                        · exact ih2 ch h
                  | none =>
                      obtain ⟨ih1, ih2⟩ := ih
                        { st with text_deltas_since_last_message := false } hpre'
                      constructor
                      · simp only [List.cons_append, List.append_eq, forward_sse_events, het]
                        rw [ih1]
                      · intro ch hch
                        simp only [forward_sse_events, het] at hch
                        exact ih2 ch hch
              | reasoning =>
                  obtain ⟨ih1, ih2⟩ := ih
                    { st with tools := (forward_tool_call_chunk st.stream_response_id created
                        model SResponseItem.reasoning st.tools).2 } hpre'
                  constructor
                  · simp only [List.cons_append, List.append_eq, forward_sse_events]
                    rw [ih1, List.append_assoc]
                  · intro ch hch
                    simp only [forward_sse_events] at hch
                    rcases List.mem_append.mp hch with h | h
                    · rcases Option.mem_toList.mp h with hsome
                      exact forward_chunk_usage_none _ _ _ _ _ _ hsome
                    · exact ih2 ch h
              | functionCall nm args cid =>
                  obtain ⟨ih1, ih2⟩ := ih
                    { st with tools := (forward_tool_call_chunk st.stream_response_id created
                        model (SResponseItem.functionCall nm args cid) st.tools).2 } hpre'
                  constructor
                  · simp only [List.cons_append, List.append_eq, forward_sse_events]
                    rw [ih1, List.append_assoc]
                  · intro ch hch
                    simp only [forward_sse_events] at hch
                    rcases List.mem_append.mp hch with h | h
                    · rcases Option.mem_toList.mp h with hsome
                      exact forward_chunk_usage_none _ _ _ _ _ _ hsome
                    · exact ih2 ch h
              | customToolCall nm args cid =>
                  obtain ⟨ih1, ih2⟩ := ih
                    { st with tools := (forward_tool_call_chunk st.stream_response_id created
                        model (SResponseItem.customToolCall nm args cid) st.tools).2 } hpre'
                  constructor
                  · simp only [List.cons_append, List.append_eq, forward_sse_events]
                    rw [ih1, List.append_assoc]
                  · intro ch hch
                    simp only [forward_sse_events] at hch
                    rcases List.mem_append.mp hch with h | h
                    · rcases Option.mem_toList.mp h with hsome
                      exact forward_chunk_usage_none _ _ _ _ _ _ hsome
                    · exact ih2 ch h
              | otherItem =>
                  obtain ⟨ih1, ih2⟩ := ih
                    { st with tools := (forward_tool_call_chunk st.stream_response_id created
                        model SResponseItem.otherItem st.tools).2 } hpre'
                  constructor
                  · simp only [List.cons_append, List.append_eq, forward_sse_events]
                    rw [ih1, List.append_assoc]
                  · intro ch hch
                    simp only [forward_sse_events] at hch
                    rcases List.mem_append.mp hch with h | h
                    · rcases Option.mem_toList.mp h with hsome
                      exact forward_chunk_usage_none _ _ _ _ _ _ hsome
                    · exact ih2 ch h

/-- Witness for C4: one text delta followed by `completed`. -/
theorem c4_witness :
    (∀ e ∈ [Except.ok (SResponseEvent.outputTextDelta "hi")], isTerminalEvt e = false) ∧
    (((forward_sse_events 0 "m"
        ([Except.ok (SResponseEvent.outputTextDelta "hi")] ++
          .ok (.completed "r1" none) :: []) initSseState).1 =
      (forward_sse_events 0 "m" [Except.ok (SResponseEvent.outputTextDelta "hi")]
          initSseState).1 ++
        [chunk_event "r1" 0 "m" .emptyDelta
          (some (if !(forward_sse_events 0 "m"
                [Except.ok (SResponseEvent.outputTextDelta "hi")]
                initSseState).2.tools.streamed_tool_calls.isEmpty
              then "tool_calls" else "stop"))
          (some ((forward_sse_events 0 "m" [Except.ok (SResponseEvent.outputTextDelta "hi")]
            initSseState).2.usage))]) ∧
    ∀ ch ∈ (forward_sse_events 0 "m" [Except.ok (SResponseEvent.outputTextDelta "hi")]
        initSseState).1, ch.usage = none) :=
  ⟨by decide,
    c4_completed_final_increment 0 "m" [Except.ok (SResponseEvent.outputTextDelta "hi")] []
      "r1" none initSseState (by decide)⟩

end CodexServe
